import Mathlib

/-!
Verification of the rg-cleanup policy core

A shallow embedding of the rg-cleanup tool (`main.go`): the resource-group
eligibility engine `shouldDeleteResourceGroup` with its regex gate and
RFC-3339 timestamp resolver, the resource-group sweeper
`runResourceGroupCleanup`, and the orphaned role-assignment reconciler
`runRoleAssignmentCleanup`.

Modelling conventions:
* Go `time.Time` instants and `time.Duration` values are both modelled as
  `Int` nanoseconds (Go durations are int64 nanosecond counts); the wall
  clock `now` is passed explicitly, so `time.Since(t)` becomes `now - t`.
  The Go code calls `time.Since` up to three times in one expression; the
  model reads the clock once, which is the intended single-instant reading.
* Go maps are modelled as association lists preserving insertion order
  (Go map iteration order is unspecified; the model fixes one order).
* The Azure SDK pagers, the delete operations and the Microsoft Graph
  existence query are external collaborators: they enter as explicit data
  (a list of page results, a delete oracle, a directory response).
* `fmt` float formatting of ages (`Hours()` returns float64) is modelled
  with exact integer division truncating toward zero, which agrees with
  `int(float64)` truncation on the magnitudes involved.
-/

namespace RgCleanup

/-- A single quote character, kept out of string literals. -/
def sq : String := String.singleton (Char.ofNat 39)

/-- Tags of a resource group: Go `map[string]*string`, modelled as an
association list from key to (dereferenced) value. -/
abbrev Tags := List (String × String)

/-- Go `rg.Tags[k]` returning the value of the first binding of `k`. -/
def lookupTag (tags : Tags) (k : String) : Option String :=
  match tags with
  | [] => none
  | (k', v) :: rest => if k' = k then some v else lookupTag rest k

/-- Go `_, ok := rg.Tags[k]`: key presence, value ignored. -/
def hasTag (tags : Tags) (k : String) : Bool :=
  (lookupTag tags k).isSome

/-- `armresources.ResourceGroup`, restricted to the fields the core reads:
`*rg.Name` and `rg.Tags`. -/
structure ResourceGroup where
  name : String
  tags : Tags

/-- Go constant `creationTimestampTag`. -/
def creationTimestampTag : String := "creationTimestamp"

/-- Go constant `doNotDeleteTag`. -/
def doNotDeleteTag : String := "DO-NOT-DELETE"

/-- Go constant `defaultTTL = 3 * 24 * time.Hour`, in nanoseconds. -/
def defaultTTL : Int := 3 * 24 * 3600 * 1000000000

/-! ## Timestamp resolver

Model of Go `time.Parse(layout, value)` restricted to the six layouts in
`rfc3339Layouts`. All six share the date-time body `2006-01-02T15:04:05`
(4-digit year; 2-digit month, day, minute, second; 1-or-2-digit hour, as
Go `getnum` parses the unpadded `15` hour chunk) followed by an optional
fractional second (Go's `Parse` accepts a fractional second after the
seconds chunk even when the layout has none) and a timezone chunk, which
is the only part where the layouts differ:
* `Z07:00` (in `RFC3339` and `RFC3339Nano`): `Z` or `±hh:mm`;
* `+0000` / `-0000`: `±hhmm`, `Z` not accepted;
* `-00:00` / `+00:00`: `±hh:mm`, `Z` not accepted.
The result is nanoseconds since the Unix epoch. -/

/-- Timezone chunk style of a supported layout. -/
inductive ZoneStyle where
  | isoColon
  | numNoColon
  | numColon
deriving DecidableEq

/-- Go `time.RFC3339`. -/
def RFC3339 : String := "2006-01-02T15:04:05Z07:00"

/-- Go `time.RFC3339Nano`. -/
def RFC3339Nano : String := "2006-01-02T15:04:05.999999999Z07:00"

/-- `rfc3339Layouts` from `main.go`: the six accepted layouts, in order. -/
def rfc3339Layouts : List String :=
  [RFC3339,
   RFC3339Nano,
   "2006-01-02T15:04:05+0000",
   "2006-01-02T15:04:05-0000",
   "2006-01-02T15:04:05-00:00",
   "2006-01-02T15:04:05+00:00"]

/-- Classify a supported layout by its timezone chunk. -/
def layoutZone (layout : String) : Option ZoneStyle :=
  if layout = RFC3339 ∨ layout = RFC3339Nano then some .isoColon
  else if layout = "2006-01-02T15:04:05+0000" ∨ layout = "2006-01-02T15:04:05-0000" then
    some .numNoColon
  else if layout = "2006-01-02T15:04:05-00:00" ∨ layout = "2006-01-02T15:04:05+00:00" then
    some .numColon
  else none

/-- Numeric value of a decimal digit. -/
def digitVal (c : Char) : Option Nat :=
  if '0' ≤ c ∧ c ≤ '9' then some (c.toNat - '0'.toNat) else none

/-- Go `getnum` with `fixed = true`: exactly two digits. -/
def getnum2 (s : List Char) : Option (Nat × List Char) :=
  match s with
  | c1 :: c2 :: rest =>
    match digitVal c1, digitVal c2 with
    | some d1, some d2 => some (d1 * 10 + d2, rest)
    | _, _ => none
  | _ => none

/-- Go `getnum` with `fixed = false` (the `15` hour chunk): one digit, or
two when a second digit follows. -/
def getnum1or2 (s : List Char) : Option (Nat × List Char) :=
  match s with
  | c1 :: rest =>
    match digitVal c1 with
    | some d1 =>
      match rest with
      | c2 :: rest2 =>
        match digitVal c2 with
        | some d2 => some (d1 * 10 + d2, rest2)
        | none => some (d1, rest)
      | [] => some (d1, rest)
    | none => none
  | [] => none

/-- The `2006` year chunk: exactly four digits. -/
def getnum4 (s : List Char) : Option (Nat × List Char) :=
  match s with
  | c1 :: c2 :: c3 :: c4 :: rest =>
    match digitVal c1, digitVal c2, digitVal c3, digitVal c4 with
    | some d1, some d2, some d3, some d4 =>
      some (((d1 * 10 + d2) * 10 + d3) * 10 + d4, rest)
    | _, _, _, _ => none
  | _ => none

/-- Consume one expected literal character. -/
def expectChar (c : Char) (s : List Char) : Option (List Char) :=
  match s with
  | c' :: rest => if c' = c then some rest else none
  | _ => none

/-- Take the longest prefix of digits, returning digits and remainder. -/
def takeDigits (s : List Char) : List Nat × List Char :=
  match s with
  | [] => ([], [])
  | c :: rest =>
    match digitVal c with
    | some d =>
      let (ds, r) := takeDigits rest
      (d :: ds, r)
    | none => ([], s)

/-- Nanoseconds denoted by a fractional-second digit string: Go
`parseNanoseconds`, which scales to 9 places and rejects more than 9
digits (the scaled value would leave the valid range). -/
def fracNanos (ds : List Nat) : Option Nat :=
  if ds.length = 0 ∨ ds.length > 9 then none
  else some (ds.foldl (fun acc d => acc * 10 + d) 0 * 10 ^ (9 - ds.length))

/-- Optional fractional second after the seconds chunk: Go `Parse` accepts
`.` or `,` followed by digits here for every layout. Returns the
nanosecond count and the remainder; no fraction present is 0 nanoseconds. -/
def parseFraction (s : List Char) : Option (Nat × List Char) :=
  match s with
  | c :: c2 :: rest =>
    if (c = '.' ∨ c = ',') ∧ (digitVal c2).isSome then
      let (ds, r) := takeDigits (c2 :: rest)
      match fracNanos ds with
      | some ns => some (ns, r)
      | none => none
    else some (0, s)
  | _ => some (0, s)

/-- Timezone offset in seconds east of UTC, per zone style. -/
def parseZone (zs : ZoneStyle) (s : List Char) : Option (Int × List Char) :=
  match zs, s with
  | .isoColon, 'Z' :: rest => some (0, rest)
  | .isoColon, c :: rest =>
    if c = '+' ∨ c = '-' then
      match getnum2 rest with
      | some (hh, r1) =>
        match expectChar ':' r1 with
        | some r2 =>
          match getnum2 r2 with
          | some (mm, r3) =>
            let off : Int := (hh : Int) * 3600 + (mm : Int) * 60
            some (if c = '-' then -off else off, r3)
          | none => none
        | none => none
      | none => none
    else none
  | .numNoColon, c :: rest =>
    if c = '+' ∨ c = '-' then
      match getnum2 rest with
      | some (hh, r1) =>
        match getnum2 r1 with
        | some (mm, r2) =>
          let off : Int := (hh : Int) * 3600 + (mm : Int) * 60
          some (if c = '-' then -off else off, r2)
        | none => none
      | none => none
    else none
  | .numColon, c :: rest =>
    if c = '+' ∨ c = '-' then
      match getnum2 rest with
      | some (hh, r1) =>
        match expectChar ':' r1 with
        | some r2 =>
          match getnum2 r2 with
          | some (mm, r3) =>
            let off : Int := (hh : Int) * 3600 + (mm : Int) * 60
            some (if c = '-' then -off else off, r3)
          | none => none
        | none => none
      | none => none
    else none
  | _, [] => none

/-- Leap-year test (Gregorian). -/
def isLeapYear (y : Nat) : Bool :=
  (y % 4 = 0 ∧ y % 100 ≠ 0) ∨ y % 400 = 0

/-- Days in a month, as Go `daysIn` uses for the day-of-month range check. -/
def daysInMonth (y m : Nat) : Nat :=
  if m = 2 then (if isLeapYear y then 29 else 28)
  else if m = 4 ∨ m = 6 ∨ m = 9 ∨ m = 11 then 30
  else 31

/-- Days from the civil epoch 1970-01-01 to year `y`, month `m`, day `d`
(the standard days-from-civil algorithm). -/
def daysFromCivil (y m d : Int) : Int :=
  let yy := if m ≤ 2 then y - 1 else y
  let era := Int.fdiv yy 400
  let yoe := yy - era * 400
  let mp := (m + 9) % 12
  let doy := Int.fdiv (153 * mp + 2) 5 + d - 1
  let doe := yoe * 365 + Int.fdiv yoe 4 - Int.fdiv yoe 100 + doy
  era * 146097 + doe - 719468

/-- Model of Go `time.Parse(layout, value)` for the six supported layouts:
nanoseconds since the Unix epoch, or `none` on any parse failure
(including the range checks Go performs on month, day, hour, minute and
second, and trailing unconsumed input). -/
def timeParse (layout value : String) : Option Int :=
  match layoutZone layout with
  | none => none
  | some zs =>
    match getnum4 value.data with
    | none => none
    | some (year, r1) =>
      match expectChar '-' r1 with
      | none => none
      | some r2 =>
        match getnum2 r2 with
        | none => none
        | some (month, r3) =>
          match expectChar '-' r3 with
          | none => none
          | some r4 =>
            match getnum2 r4 with
            | none => none
            | some (day, r5) =>
              match expectChar 'T' r5 with
              | none => none
              | some r6 =>
                match getnum1or2 r6 with
                | none => none
                | some (hour, r7) =>
                  match expectChar ':' r7 with
                  | none => none
                  | some r8 =>
                    match getnum2 r8 with
                    | none => none
                    | some (minute, r9) =>
                      match expectChar ':' r9 with
                      | none => none
                      | some r10 =>
                        match getnum2 r10 with
                        | none => none
                        | some (second, r11) =>
                          match parseFraction r11 with
                          | none => none
                          | some (nanos, r12) =>
                            match parseZone zs r12 with
                            | none => none
                            | some (offset, r13) =>
                              if r13 = [] ∧ 1 ≤ month ∧ month ≤ 12 ∧
                                  1 ≤ day ∧ day ≤ daysInMonth year month ∧
                                  hour ≤ 23 ∧ minute ≤ 59 ∧ second ≤ 59 then
                                some (((daysFromCivil year month day) * 86400 +
                                       (hour : Int) * 3600 + (minute : Int) * 60 +
                                       (second : Int) - offset) * 1000000000 +
                                      (nanos : Int))
                              else none

/-- The parse loop of `shouldDeleteResourceGroup`: try each layout in
order, first success wins; `none` when every layout fails. -/
def parseFirstLayout (layouts : List String) (value : String) : Option Int :=
  match layouts with
  | [] => none
  | l :: rest =>
    match timeParse l value with
    | some t => some t
    | none => parseFirstLayout rest value

/-! ## Regular expressions

Model of the part of Go's `regexp` package that
`regexMatchesResourceGroupName` uses: `regexp.Compile` and
`(*Regexp).FindString`. The modelled syntax is the subset sufficient for
the patterns this tool is configured with: literal characters, `.`
(any character except newline), the anchors `^` (start of text) and `$`
(end of text — Go's default, no multiline flag), grouping `(...)`,
alternation `|`, and the greedy repetitions `*`, `+`, `?`. Character
classes, counted repetition and letter escapes are outside the modelled
subset and are rejected by `compile`. `FindString` returns the leftmost
match, preferring earlier alternatives and longer (greedy) repetitions,
and returns the empty string when there is no match, exactly as Go does. -/

/-- Abstract syntax of the modelled regular expressions. -/
inductive Regex where
  | eps
  | char (c : Char)
  | any
  | bol
  | eol
  | alt (a b : Regex)
  | cat (a b : Regex)
  | star (a : Regex)
deriving DecidableEq, Repr

/-- Structural size, used to bound the matcher's recursion. -/
def Regex.size : Regex → Nat
  | .eps => 1
  | .char _ => 1
  | .any => 1
  | .bol => 1
  | .eol => 1
  | .alt a b => a.size + b.size + 1
  | .cat a b => a.size + b.size + 1
  | .star a => a.size + 1

/-- `r` matches the span `[i, j)` of the character list `s`. Anchors
consult the global position: `^` holds only at position 0 and `$` only at
`s.length`. The `star_cons` rule requires each iteration to consume at
least one character; this does not change which spans a starred
expression matches (empty iterations contribute nothing to a span) and
keeps the relation well-founded. -/
inductive RMatch (s : List Char) : Regex → Nat → Nat → Prop where
  | eps (i : Nat) : RMatch s .eps i i
  | char (i : Nat) (c : Char) : s.get? i = some c → RMatch s (.char c) i (i + 1)
  | any (i : Nat) (c : Char) : s.get? i = some c → c ≠ '\n' → RMatch s .any i (i + 1)
  | bol : RMatch s .bol 0 0
  | eol : RMatch s .eol s.length s.length
  | alt_left {a b : Regex} {i j : Nat} : RMatch s a i j → RMatch s (.alt a b) i j
  | alt_right {a b : Regex} {i j : Nat} : RMatch s b i j → RMatch s (.alt a b) i j
  | cat {a b : Regex} {i k j : Nat} :
      RMatch s a i k → RMatch s b k j → RMatch s (.cat a b) i j
  | star_nil (a : Regex) (i : Nat) : RMatch s (.star a) i i
  | star_cons {a : Regex} {i k j : Nat} :
      RMatch s a i k → i < k → RMatch s (.star a) k j → RMatch s (.star a) i j

/-- Fuelled matcher: all end positions `j` such that `r` matches `[i, j)`
of `s`, listed in Go's preference order (earlier alternatives first,
greedy repetitions longest first). Fuel only bounds the recursion; every
listed span is a true match (`matchSpansF_sound`). -/
def matchSpansF : Nat → Regex → List Char → Nat → List Nat
  | 0, _, _, _ => []
  | f + 1, r, s, i =>
    match r with
    | .eps => [i]
    | .char c =>
      match s.get? i with
      | some d => if d = c then [i + 1] else []
      | none => []
    | .any =>
      match s.get? i with
      | some d => if d = '\n' then [] else [i + 1]
      | none => []
    | .bol => if i = 0 then [i] else []
    | .eol => if i = s.length then [i] else []
    | .alt a b => matchSpansF f a s i ++ matchSpansF f b s i
    | .cat a b => ((matchSpansF f a s i).map (fun k => matchSpansF f b s k)).flatten
    | .star a =>
      (((matchSpansF f a s i).filter (fun k => i < k)).map
        (fun k => matchSpansF f (.star a) s k)).flatten ++ [i]

/-- Canonical fuel: generous enough for the matcher to be complete on the
inputs this development evaluates it on. -/
def matchSpans (r : Regex) (s : List Char) (i : Nat) : List Nat :=
  matchSpansF ((r.size + 1) * (s.length + 2)) r s i

/-- Scan start positions `i, i+1, ...` (`rem` positions remain): the first
position with a match, together with the preferred end position. This is
the search loop of Go `FindString`. -/
def findFromF (r : Regex) (s : List Char) : Nat → Nat → Option (Nat × Nat)
  | 0, _ => none
  | rem + 1, i =>
    match matchSpans r s i with
    | j :: _ => some (i, j)
    | [] => findFromF r s rem (i + 1)

/-- Go `(*Regexp).FindString`: the text of the leftmost match, `""` when
there is no match (or the match is empty). -/
def findString (r : Regex) (str : String) : String :=
  match findFromF r str.data (str.data.length + 1) 0 with
  | none => ""
  | some (i, j) => String.mk ((str.data.drop i).take (j - i))

/-! ### Compilation (Go `regexp.Compile` on the modelled subset)

A single left-to-right pass with a stack of open groups. Each frame holds
the alternatives finished so far (reversed) and the atoms of the current
alternative (reversed, so postfix operators can reach the latest atom). -/

/-- One parse frame: finished alternatives (reversed) and the current
concatenation's atoms (reversed). -/
structure RFrame where
  alts : List Regex
  atoms : List Regex

/-- Concatenation of the frame's current atoms (stored reversed). -/
def reduceAtoms (atoms : List Regex) : Regex :=
  match atoms.reverse with
  | [] => .eps
  | a :: rest => rest.foldl Regex.cat a

/-- Fold a frame to a single expression, keeping alternatives in textual
order (left preferred). -/
def reduceFrame (fr : RFrame) : Regex :=
  match (reduceAtoms fr.atoms :: fr.alts).reverse with
  | [] => .eps
  | a :: rest => rest.foldl Regex.alt a

/-- Wrap the latest atom with a postfix repetition operator; Go errors
with `missing argument to repetition operator` when there is none. -/
def applyRep (wrap : Regex → Regex) (fr : RFrame) : Except String RFrame :=
  match fr.atoms with
  | [] => .error "missing argument to repetition operator"
  | a :: rest => .ok ⟨fr.alts, wrap a :: rest⟩

/-- Characters with meaning of their own in the modelled subset; `[`, `]`,
`{` and `}` are rejected by the compiler rather than treated literally. -/
def metaChars : List Char :=
  ['(', ')', '|', '*', '+', '?', '^', '$', '.', '\\', '[', ']', '{', '}']

/-- The compilation loop: current frame, stack of enclosing open groups,
remaining input. -/
def compileLoop (fr : RFrame) (stack : List RFrame) : List Char → Except String Regex
  | [] =>
    match stack with
    | [] => .ok (reduceFrame fr)
    | _ => .error "missing closing )"
  | c :: rest =>
    match c with
    | '(' => compileLoop ⟨[], []⟩ (fr :: stack) rest
    | ')' =>
      match stack with
      | [] => .error "unexpected )"
      | parent :: stack' =>
        compileLoop ⟨parent.alts, reduceFrame fr :: parent.atoms⟩ stack' rest
    | '|' => compileLoop ⟨reduceAtoms fr.atoms :: fr.alts, []⟩ stack rest
    | '*' =>
      match applyRep Regex.star fr with
      | .ok fr' => compileLoop fr' stack rest
      | .error e => .error e
    | '+' =>
      match applyRep (fun a => Regex.cat a (Regex.star a)) fr with
      | .ok fr' => compileLoop fr' stack rest
      | .error e => .error e
    | '?' =>
      match applyRep (fun a => Regex.alt a Regex.eps) fr with
      | .ok fr' => compileLoop fr' stack rest
      | .error e => .error e
    | '^' => compileLoop ⟨fr.alts, Regex.bol :: fr.atoms⟩ stack rest
    | '$' => compileLoop ⟨fr.alts, Regex.eol :: fr.atoms⟩ stack rest
    | '.' => compileLoop ⟨fr.alts, Regex.any :: fr.atoms⟩ stack rest
    | '\\' =>
      match rest with
      | [] => .error "trailing backslash at end of expression"
      | e :: rest2 =>
        if e.isAlphanum then .error "escape outside the modelled subset"
        else compileLoop ⟨fr.alts, Regex.char e :: fr.atoms⟩ stack rest2
    | _ =>
      if c ∈ metaChars then .error "construct outside the modelled subset"
      else compileLoop ⟨fr.alts, Regex.char c :: fr.atoms⟩ stack rest

/-- Model of Go `regexp.Compile` on the modelled subset. -/
def Regex.compile (pattern : String) : Except String Regex :=
  compileLoop ⟨[], []⟩ [] pattern.data

/-! ## Eligibility engine -/

/-- `regexMatchesResourceGroupName` from `main.go`: compile the pattern
(`error` on compile failure, as Go wraps and returns the error), find the
leftmost match in the name, and report `true` exactly when that match is
the whole name. An empty pattern returns `false`. -/
def regexMatchesResourceGroupName (regex rgName : String) : Except String Bool :=
  if regex ≠ "" then
    match Regex.compile regex with
    | .error e => .error ("failed to compile regex: " ++ e)
    | .ok rgx =>
      let m := findString rgx rgName
      if m ≠ rgName then .ok false else .ok true
  else .ok false

/-- The pattern gate inside `shouldDeleteResourceGroup`: with an empty
configured pattern the gate is skipped; otherwise evaluation proceeds
only when `regexMatchesResourceGroupName` returns `ok true` — a compile
error or a non-match both stop it (fails closed). -/
def regexGatePasses (regex rgName : String) : Bool :=
  if regex = "" then true
  else
    match regexMatchesResourceGroupName regex rgName with
    | .ok true => true
    | _ => false

/-- Nanoseconds per hour. -/
def nsPerHour : Int := 3600 * 1000000000

/-- Nanoseconds per day. -/
def nsPerDay : Int := 24 * 3600 * 1000000000

/-- The age report
`fmt.Sprintf("%d days (%d hours)", int(since.Hours()/24), int(since.Hours()))`
for an age of `d` nanoseconds. `int(float64)` truncates toward zero, so
whole days and whole hours are `Int.tdiv`. -/
def ageDescription (d : Int) : String :=
  toString (d.tdiv nsPerDay) ++ " days (" ++ toString (d.tdiv nsPerHour) ++ " hours)"

/-- Insert one tag into a key-sorted list (insertion sort step). -/
def insertTagSorted (p : String × String) : List (String × String) → List (String × String)
  | [] => [p]
  | q :: rest => if p.1 < q.1 then p :: q :: rest else q :: insertTagSorted p rest

/-- Sort tags by key, as `fmt` prints Go maps with sorted keys. -/
def sortTags (tags : Tags) : List (String × String) :=
  tags.foldr insertTagSorted []

/-- Go `fmt` `%v` rendering of the tag map: `map[k1:v1 k2:v2]` with keys
sorted. (Go prints each `*string` value as a pointer; the model, which
carries the pointed-to strings, prints those.) -/
def formatTags (tags : Tags) : String :=
  "map[" ++ String.intercalate " " ((sortTags tags).map (fun p => p.1 ++ ":" ++ p.2)) ++ "]"

/-- The description returned when the creation-timestamp tag is absent. -/
def missingTimestampMessage (tags : Tags) : String :=
  "probably a long time because it does not have a " ++ sq ++ creationTimestampTag ++ sq ++
    " tag. Found tags: " ++ formatTags tags

/-- `shouldDeleteResourceGroup(rg, ttl, regex)` from `main.go`, with the
wall clock `now` explicit. Gates in source order: the `DO-NOT-DELETE`
veto, the pattern gate, the creation-timestamp lookup (absent means
eligible with an explanatory description), the layout-list parse (failure
means not eligible), and finally the inclusive age comparison
`time.Since(t) >= ttl`. -/
def shouldDeleteResourceGroup (rg : ResourceGroup) (ttl : Int) (regex : String)
    (now : Int) : String × Bool :=
  if hasTag rg.tags doNotDeleteTag then ("", false)
  else if ¬ regexGatePasses regex rg.name then ("", false)
  else
    match lookupTag rg.tags creationTimestampTag with
    | none => (missingTimestampMessage rg.tags, true)
    | some creationTimestamp =>
      match parseFirstLayout rfc3339Layouts creationTimestamp with
      | none => ("", false)
      | some t => (ageDescription (now - t), decide (ttl ≤ now - t))

/-! ## Resource group sweeper

`runResourceGroupCleanup` drives the pager and, per eligible group,
either logs (dry run) or submits `BeginDelete` without awaiting it. The
pager is modelled by the list of its page results (`Except` for a failed
fetch), and `BeginDelete` by an oracle giving the submission outcome per
group name. The observable behaviour is the list of actions taken in
order, plus the function's returned error. -/

/-- One observable step of the sweeper, per eligible group. -/
inductive RGAction where
  | dryRunEligible (name age : String)
  | deleteBegun (name age : String)
  | deleteFailed (name err : String)
deriving DecidableEq, Repr

/-- The inner loop over one page (`for _, rg := range nextResult.Value`):
a dry-run log, a successfully submitted delete, or a logged submission
failure — which does not stop the loop. -/
def sweepPage (page : List ResourceGroup) (ttl : Int) (dryRun : Bool) (regex : String)
    (now : Int) (beginDelete : String → Option String) : List RGAction :=
  match page with
  | [] => []
  | rg :: rest =>
    let tail := sweepPage rest ttl dryRun regex now beginDelete
    match shouldDeleteResourceGroup rg ttl regex now with
    | (age, true) =>
      (if dryRun then RGAction.dryRunEligible rg.name age
       else
         match beginDelete rg.name with
         | none => RGAction.deleteBegun rg.name age
         | some e => RGAction.deleteFailed rg.name e) :: tail
    | (_, false) => tail

/-- `runResourceGroupCleanup` from `main.go`: a page-fetch error aborts
the whole sweep and is returned (wrapped); otherwise every page is swept
and the function returns `nil`. -/
def runResourceGroupCleanup (pages : List (Except String (List ResourceGroup)))
    (ttl : Int) (dryRun : Bool) (regex : String) (now : Int)
    (beginDelete : String → Option String) : List RGAction × Option String :=
  match pages with
  | [] => ([], none)
  | (Except.error e) :: _ => ([], some ("error when iterating resource groups: " ++ e))
  | (Except.ok page) :: rest =>
    let acts := sweepPage page ttl dryRun regex now beginDelete
    let (acts2, err) := runResourceGroupCleanup rest ttl dryRun regex now beginDelete
    (acts ++ acts2, err)

/-! ## Orphaned role-assignment reconciler -/

/-- Go `armauthorization.PrincipalTypeServicePrincipal`. -/
def PrincipalTypeServicePrincipal : String := "ServicePrincipal"

/-- `armauthorization.RoleAssignment`, restricted to the fields read:
`ID`, `Properties.PrincipalID`, `Properties.PrincipalType`,
`Properties.Scope` — all pointers, hence `Option`. -/
structure RoleAssignment where
  id : Option String
  principalID : Option String
  principalType : Option String
  scope : Option String

/-- The exact subscription-root scope `"/subscriptions/" + subscriptionID`. -/
def subscriptionScope (subscriptionID : String) : String :=
  "/subscriptions/" ++ subscriptionID

/-- `principalToAssignmentIDs`: Go `map[string][]string`, modelled as an
insertion-ordered association list. -/
abbrev PrincipalMap := List (String × List String)

/-- `principalToAssignmentIDs[pid] = append(principalToAssignmentIDs[pid], aid)`:
append to the existing binding, or add a new one at the end. -/
def appendAssignment (m : PrincipalMap) (pid aid : String) : PrincipalMap :=
  match m with
  | [] => [(pid, [aid])]
  | (k, v) :: rest =>
    if k = pid then (k, v ++ [aid]) :: rest else (k, v) :: appendAssignment rest pid aid

/-- The phase-1 per-assignment filter: skip unless the principal type is
`ServicePrincipal`, the scope is exactly the subscription root (the
server-side `atScope()` filter does not exclude broader scopes), and both
`PrincipalID` and `ID` are present; returns the kept `(pid, aid)`. -/
def assignmentFilter (subscriptionID : String) (a : RoleAssignment) :
    Option (String × String) :=
  if a.principalType ≠ some PrincipalTypeServicePrincipal then none
  else if a.scope ≠ some (subscriptionScope subscriptionID) then none
  else
    match a.principalID, a.id with
    | some pid, some aid => some (pid, aid)
    | _, _ => none

/-- Accumulate one page of assignments into the candidate map. -/
def collectPage (subscriptionID : String) (m : PrincipalMap)
    (page : List RoleAssignment) : PrincipalMap :=
  page.foldl
    (fun m a =>
      match assignmentFilter subscriptionID a with
      | some (pid, aid) => appendAssignment m pid aid
      | none => m)
    m

/-- The phase-1 pager loop: a page-fetch error is returned as is and
aborts the collection. -/
def collectPages (subscriptionID : String) (m : PrincipalMap) :
    List (Except String (List RoleAssignment)) → Except String PrincipalMap
  | [] => .ok m
  | (Except.error e) :: _ => .error e
  | (Except.ok page) :: rest =>
    collectPages subscriptionID (collectPage subscriptionID m page) rest

/-- Go `delete(principalToAssignmentIDs, existingID)`. -/
def eraseKey (m : PrincipalMap) (k : String) : PrincipalMap :=
  m.filter (fun e => e.1 ≠ k)

/-- Phase 2: for every directory object of the `GetByIds` response whose
`GetId()` is non-nil, drop that principal (and all its assignments) from
the candidate map. -/
def removeExisting (m : PrincipalMap) (response : List (Option String)) : PrincipalMap :=
  response.foldl
    (fun m oid =>
      match oid with
      | some existingID => eraseKey m existingID
      | none => m)
    m

/-- One observable step of reconciliation phase 3. -/
inductive RAAction where
  | deleted (aid : String)
  | dryRunSkipped (aid : String)
deriving DecidableEq, Repr

/-- The inner phase-3 loop over one principal's assignment IDs: dry-run
entries are only logged; a `DeleteByID` failure stops everything and is
returned (wrapped), leaving the remaining IDs untouched. -/
def deleteList (aids : List String) (deleteByID : String → Option String)
    (dryRun : Bool) : List RAAction × Option String :=
  match aids with
  | [] => ([], none)
  | aid :: rest =>
    if dryRun then
      let (acts, err) := deleteList rest deleteByID dryRun
      (RAAction.dryRunSkipped aid :: acts, err)
    else
      match deleteByID aid with
      | some e => ([], some ("failed to delete role assignment " ++ aid ++ ": " ++ e))
      | none =>
        let (acts, err) := deleteList rest deleteByID dryRun
        (RAAction.deleted aid :: acts, err)

/-- The outer phase-3 loop over the remaining candidate map. -/
def deletePhase (m : PrincipalMap) (deleteByID : String → Option String)
    (dryRun : Bool) : List RAAction × Option String :=
  match m with
  | [] => ([], none)
  | (_, aids) :: rest =>
    let (acts, err) := deleteList aids deleteByID dryRun
    match err with
    | some e => (acts, some e)
    | none =>
      let (acts2, err2) := deletePhase rest deleteByID dryRun
      (acts ++ acts2, err2)

/-- `runRoleAssignmentCleanup` from `main.go`. Phase 1 pages through the
at-scope role assignments into the candidate map (early empty return);
phase 2 asks the directory which candidate principals still exist, in one
batched `GetByIds` call (modelled by the oracle `graphGetByIds` from the
queried IDs to the response), and removes the confirmed ones; phase 3
deletes what remains (or dry-run logs it). Returns the actions taken and
the returned error, `none` for Go `nil`. -/
def runRoleAssignmentCleanup (subscriptionID : String)
    (pages : List (Except String (List RoleAssignment)))
    (graphGetByIds : List String → Except String (List (Option String)))
    (deleteByID : String → Option String) (dryRun : Bool) :
    List RAAction × Option String :=
  match collectPages subscriptionID [] pages with
  | .error e => ([], some e)
  | .ok m =>
    if m.isEmpty then ([], none)
    else
      match graphGetByIds (m.map Prod.fst) with
      | .error e => ([], some ("error querying graph: " ++ e))
      | .ok response =>
        let remaining := removeExisting m response
        if remaining.isEmpty then ([], none)
        else deletePhase remaining deleteByID dryRun

/-! ## Eligibility engine theorems -/

/-- The missing-timestamp description is never the empty string. -/
theorem missingTimestampMessage_ne_empty (tags : Tags) : missingTimestampMessage tags ≠ "" := by
  intro he
  have hlen := congrArg String.length he
  simp only [missingTimestampMessage, String.length_append] at hlen
  have h0 : ("" : String).length = 0 := rfl
  rw [h0] at hlen
  have h1 : 0 < ("probably a long time because it does not have a " : String).length := by decide
  omega

/-- The missing-timestamp description names the `creationTimestamp` tag. -/
theorem creationTimestampTag_infix_message (tags : Tags) :
    List.IsInfix creationTimestampTag.data (missingTimestampMessage tags).data := by
  refine ⟨("probably a long time because it does not have a " ++ sq).data,
    (sq ++ " tag. Found tags: " ++ formatTags tags).data, ?_⟩
  simp [missingTimestampMessage, String.data_append, List.append_assoc]

/-- **C2.** A resource group whose tags contain the `DO-NOT-DELETE` key
(any value) is never eligible: `shouldDeleteResourceGroup` returns
`("", false)` whatever the name, the configured pattern, the ttl and the
creation timestamp — the veto decides before the pattern gate and before
any timestamp lookup. -/
theorem doNotDelete_tag_unconditional_veto (rg : ResourceGroup) (ttl : Int) (regex : String)
    (now : Int) (h : hasTag rg.tags doNotDeleteTag = true) :
    shouldDeleteResourceGroup rg ttl regex now = ("", false) := by
  simp [shouldDeleteResourceGroup, h]

/-- Witness for C2: an ancient, pattern-matching group carrying the
opt-out tag is not eligible. -/
theorem doNotDelete_tag_unconditional_veto_witness :
    hasTag [("DO-NOT-DELETE", "true"), ("creationTimestamp", "2019-01-01T00:00:00Z")]
      doNotDeleteTag = true ∧
    shouldDeleteResourceGroup
      ⟨"kubetest-ancient", [("DO-NOT-DELETE", "true"), ("creationTimestamp", "2019-01-01T00:00:00Z")]⟩
      defaultTTL "^kube.+$" 1609459200000000000 = ("", false) :=
  ⟨by decide, doNotDelete_tag_unconditional_veto _ defaultTTL "^kube.+$" 1609459200000000000
    (by decide)⟩

/-- **C4.** Past the veto and pattern gates, a group without the
`creationTimestamp` tag is eligible, and the returned description is the
non-empty message that names the missing tag and echoes the tag map. -/
theorem missing_creation_timestamp_eligible (rg : ResourceGroup) (ttl : Int) (regex : String)
    (now : Int)
    (hveto : hasTag rg.tags doNotDeleteTag = false)
    (hgate : regexGatePasses regex rg.name = true)
    (hts : lookupTag rg.tags creationTimestampTag = none) :
    shouldDeleteResourceGroup rg ttl regex now = (missingTimestampMessage rg.tags, true) ∧
    missingTimestampMessage rg.tags ≠ "" ∧
    List.IsInfix creationTimestampTag.data (missingTimestampMessage rg.tags).data := by
  refine ⟨?_, missingTimestampMessage_ne_empty rg.tags, creationTimestampTag_infix_message rg.tags⟩
  simp [shouldDeleteResourceGroup, hveto, hgate, hts]

/-- Witness for C4: a tagged-but-unlabelled group is eligible with the
explanatory description. -/
theorem missing_creation_timestamp_eligible_witness :
    shouldDeleteResourceGroup ⟨"kubetest-789", [("team", "x")]⟩ defaultTTL "" 1609459200000000000
      = (missingTimestampMessage [("team", "x")], true) ∧
    missingTimestampMessage [("team", "x")] ≠ "" ∧
    List.IsInfix creationTimestampTag.data (missingTimestampMessage [("team", "x")]).data :=
  missing_creation_timestamp_eligible ⟨"kubetest-789", [("team", "x")]⟩ defaultTTL ""
    1609459200000000000 (by decide) rfl (by decide)

/-- **C5.** Past the veto and pattern gates, a `creationTimestamp` value
that none of the six layouts parses makes the group not eligible with an
empty description — the evaluation fails closed, it does not crash. -/
theorem unparsable_creation_timestamp_not_eligible (rg : ResourceGroup) (ttl : Int)
    (regex : String) (now : Int) (ts : String)
    (hveto : hasTag rg.tags doNotDeleteTag = false)
    (hgate : regexGatePasses regex rg.name = true)
    (hts : lookupTag rg.tags creationTimestampTag = some ts)
    (hparse : parseFirstLayout rfc3339Layouts ts = none) :
    shouldDeleteResourceGroup rg ttl regex now = ("", false) ∧ rfc3339Layouts.length = 6 := by
  constructor
  · simp [shouldDeleteResourceGroup, hveto, hgate, hts, hparse]
  · rfl

/-- Witness for C5: the epoch-like numeric string `"1608166242"` parses
under none of the layouts and resolves to not-eligible. -/
theorem unparsable_creation_timestamp_not_eligible_witness :
    shouldDeleteResourceGroup ⟨"kubetest-789", [("creationTimestamp", "1608166242")]⟩
      defaultTTL "" 1609459200000000000 = ("", false) ∧ rfc3339Layouts.length = 6 :=
  unparsable_creation_timestamp_not_eligible ⟨"kubetest-789", [("creationTimestamp", "1608166242")]⟩
    defaultTTL "" 1609459200000000000 "1608166242" (by decide) rfl (by decide) (by decide)

/-- **C6.** Past the veto and pattern gates, with a parsable timestamp
`t`, the verdict is the age report and the inclusive comparison
`age >= ttl`; in particular age exactly `ttl` is eligible and age one
nanosecond below `ttl` is not. -/
theorem parsable_timestamp_inclusive_ttl_boundary (rg : ResourceGroup) (ttl : Int)
    (regex : String) (now : Int) (ts : String) (t : Int)
    (hveto : hasTag rg.tags doNotDeleteTag = false)
    (hgate : regexGatePasses regex rg.name = true)
    (hts : lookupTag rg.tags creationTimestampTag = some ts)
    (hparse : parseFirstLayout rfc3339Layouts ts = some t) :
    shouldDeleteResourceGroup rg ttl regex now
      = (ageDescription (now - t), decide (ttl ≤ now - t)) ∧
    (now - t = ttl → (shouldDeleteResourceGroup rg ttl regex now).2 = true) ∧
    (now - t = ttl - 1 → (shouldDeleteResourceGroup rg ttl regex now).2 = false) := by
  have hmain : shouldDeleteResourceGroup rg ttl regex now
      = (ageDescription (now - t), decide (ttl ≤ now - t)) := by
    simp [shouldDeleteResourceGroup, hveto, hgate, hts, hparse]
  refine ⟨hmain, ?_, ?_⟩
  · intro hb; rw [hmain]; simp [hb]
  · intro hb; rw [hmain]; simp only [hb]
    simp only [decide_eq_false_iff_not]
    omega

/-- Witness for C6: a group created 2020-12-28T00:00:00Z evaluated with
`ttl = 3` days is eligible when `now` is exactly three days later and not
eligible one nanosecond earlier. -/
theorem parsable_timestamp_inclusive_ttl_boundary_witness :
    (shouldDeleteResourceGroup ⟨"kubetest-456", [("creationTimestamp", "2020-12-28T00:00:00Z")]⟩
      defaultTTL "" 1609372800000000000).2 = true ∧
    (shouldDeleteResourceGroup ⟨"kubetest-456", [("creationTimestamp", "2020-12-28T00:00:00Z")]⟩
      defaultTTL "" 1609372799999999999).2 = false := by
  constructor
  · exact (parsable_timestamp_inclusive_ttl_boundary
      ⟨"kubetest-456", [("creationTimestamp", "2020-12-28T00:00:00Z")]⟩ defaultTTL ""
      1609372800000000000 "2020-12-28T00:00:00Z" 1609113600000000000
      (by decide) rfl (by decide) (by decide)).2.1 (by decide)
  · exact (parsable_timestamp_inclusive_ttl_boundary
      ⟨"kubetest-456", [("creationTimestamp", "2020-12-28T00:00:00Z")]⟩ defaultTTL ""
      1609372799999999999 "2020-12-28T00:00:00Z" 1609113600000000000
      (by decide) rfl (by decide) (by decide)).2.2 (by decide)

/-- **C10.** A not-eligible verdict with a non-empty description can only
come from the final branch: a parsable timestamp whose age is strictly
below `ttl`, the description being the whole-days/whole-hours age report.
Contrapositive: the veto, the pattern gate and the unparsable-timestamp
branch all return an empty description. -/
theorem nonempty_description_only_when_under_ttl (rg : ResourceGroup) (ttl : Int)
    (regex : String) (now : Int) (desc : String)
    (h : shouldDeleteResourceGroup rg ttl regex now = (desc, false)) (hne : desc ≠ "") :
    ∃ ts t, lookupTag rg.tags creationTimestampTag = some ts ∧
      parseFirstLayout rfc3339Layouts ts = some t ∧
      desc = ageDescription (now - t) ∧ now - t < ttl := by
  unfold shouldDeleteResourceGroup at h
  split at h
  · exact absurd (congrArg Prod.fst h).symm hne
  · split at h
    · exact absurd (congrArg Prod.fst h).symm hne
    · split at h
      next => exact absurd (congrArg Prod.snd h) (by simp)
      next ts hts =>
        split at h
        next => exact absurd (congrArg Prod.fst h).symm hne
        next t hparse =>
          have h1 := congrArg Prod.fst h
          have h2 := congrArg Prod.snd h
          simp only at h1 h2
          refine ⟨ts, t, hts, hparse, h1.symm, ?_⟩
          have := of_decide_eq_false h2
          omega

/-- Witness for C10: a one-day-old group under a three-day ttl is not
eligible and its description reports one day, twenty-four hours. -/
theorem nonempty_description_only_when_under_ttl_witness :
    ∃ ts t,
      lookupTag [("creationTimestamp", "2020-12-31T00:00:00Z")] creationTimestampTag = some ts ∧
      parseFirstLayout rfc3339Layouts ts = some t ∧
      ("1 days (24 hours)" : String) = ageDescription (1609459200000000000 - t) ∧
      1609459200000000000 - t < defaultTTL :=
  nonempty_description_only_when_under_ttl
    ⟨"kubetest-123", [("creationTimestamp", "2020-12-31T00:00:00Z")]⟩ defaultTTL ""
    1609459200000000000 "1 days (24 hours)" (by decide) (by decide)


/-! ## Pattern gate theorems (regex soundness) -/

theorem matchSpansF_sound {f : Nat} {r : Regex} {s : List Char} {i j : Nat}
    (h : j ∈ matchSpansF f r s i) : RMatch s r i j := by
  induction f generalizing r i j with
  | zero => simp [matchSpansF] at h
  | succ f ih =>
    cases r with
    | eps =>
      simp only [matchSpansF, List.mem_singleton] at h
      rw [h]; exact .eps i
    | char c =>
      simp only [matchSpansF] at h
      cases hg : s.get? i with
      | none => rw [hg] at h; simp at h
      | some d =>
        rw [hg] at h
        by_cases hd : d = c
        · simp only [hd, if_true, List.mem_singleton] at h
          subst h; exact .char i c (hd ▸ hg)
        · simp [hd] at h
    | any =>
      simp only [matchSpansF] at h
      cases hg : s.get? i with
      | none => rw [hg] at h; simp at h
      | some d =>
        rw [hg] at h
        by_cases hd : d = '\n'
        · simp [hd] at h
        · simp only [hd, if_false, List.mem_singleton] at h
          subst h; exact .any i d hg hd
    | bol =>
      simp only [matchSpansF] at h
      by_cases hi : i = 0
      · simp only [hi, if_true, List.mem_singleton] at h
        subst h; rw [hi]; exact .bol
      · simp [hi] at h
    | eol =>
      simp only [matchSpansF] at h
      by_cases hi : i = s.length
      · simp only [hi, if_true, List.mem_singleton] at h
        subst h; rw [hi]; exact .eol
      · simp [hi] at h
    | alt a b =>
      simp only [matchSpansF, List.mem_append] at h
      rcases h with h | h
      · exact .alt_left (ih h)
      · exact .alt_right (ih h)
    | cat a b =>
      simp only [matchSpansF, List.mem_flatten, List.mem_map] at h
      obtain ⟨l, ⟨k, hk, hl⟩, hj⟩ := h
      subst hl
      exact .cat (ih hk) (ih hj)
    | star a =>
      simp only [matchSpansF, List.mem_append, List.mem_flatten, List.mem_map,
        List.mem_singleton] at h
      rcases h with ⟨l, ⟨k, hk, hl⟩, hj⟩ | h
      · subst hl
        rw [List.mem_filter] at hk
        exact .star_cons (ih hk.1) (by simpa using hk.2) (ih hj)
      · rw [h]; exact .star_nil a i

theorem RMatch.bounds {s : List Char} {r : Regex} {i j : Nat} (h : RMatch s r i j) :
    i ≤ j ∧ (i ≤ s.length → j ≤ s.length) := by
  induction h with
  | eps i => exact ⟨Nat.le_refl _, fun h => h⟩
  | char i c hg =>
    have hlt : i < s.length := (List.get?_eq_some.mp hg).1
    exact ⟨Nat.le_succ i, fun _ => hlt⟩
  | any i c hg hne =>
    have hlt : i < s.length := (List.get?_eq_some.mp hg).1
    exact ⟨Nat.le_succ i, fun _ => hlt⟩
  | bol => exact ⟨Nat.le_refl _, fun h => h⟩
  | eol => exact ⟨Nat.le_refl _, fun h => h⟩
  | alt_left _ ih => exact ih
  | alt_right _ ih => exact ih
  | cat h1 h2 ih1 ih2 =>
    exact ⟨Nat.le_trans ih1.1 ih2.1, fun hi => ih2.2 (ih1.2 hi)⟩
  | star_nil a i => exact ⟨Nat.le_refl _, fun h => h⟩
  | star_cons h1 hlt h2 ih1 ih2 =>
    exact ⟨Nat.le_trans ih1.1 ih2.1, fun hi => ih2.2 (ih1.2 hi)⟩

theorem findFromF_sound {r : Regex} {s : List Char} :
    ∀ (rem i i' j : Nat), findFromF r s rem i = some (i', j) → rem + i ≤ s.length + 1 →
      i' ≤ s.length ∧ j ∈ matchSpans r s i' := by
  intro rem
  induction rem with
  | zero => intro i i' j h _; simp [findFromF] at h
  | succ rem ih =>
    intro i i' j h hb
    rw [findFromF] at h
    cases hm : matchSpans r s i with
    | cons k tl =>
      rw [hm] at h
      injection h with h'
      injection h' with h1 h2
      subst h1; subst h2
      exact ⟨by omega, by rw [hm]; exact List.mem_cons_self _ _⟩
    | nil =>
      rw [hm] at h
      exact ih (i + 1) i' j h (by omega)

theorem findString_whole_match {r : Regex} {str : String}
    (h : findString r str = str) (hne : str ≠ "") :
    RMatch str.data r 0 str.data.length := by
  unfold findString at h
  cases hf : findFromF r str.data (str.data.length + 1) 0 with
  | none =>
    rw [hf] at h
    exact absurd h.symm hne
  | some p =>
    obtain ⟨i, j⟩ := p
    rw [hf] at h
    obtain ⟨hile, hjmem⟩ := findFromF_sound _ 0 i j hf (by omega)
    have hr : RMatch str.data r i j := matchSpansF_sound hjmem
    obtain ⟨hij, hjb⟩ := hr.bounds
    have hjle : j ≤ str.data.length := hjb hile
    -- the extracted text equals the whole string
    have hdata : ((str.data.drop i).take (j - i)) = str.data := congrArg String.data h
    have hlen := congrArg List.length hdata
    rw [List.length_take, List.length_drop] at hlen
    have hi0 : i = 0 := by omega
    have hjn : j = str.data.length := by omega
    subst hi0; subst hjn
    exact hr


theorem pattern_gate_full_match :
    (∀ (name : String) (tags : Tags) (ttl now : Int) (pattern : String),
        pattern ≠ "" → name ≠ "" →
        (shouldDeleteResourceGroup ⟨name, tags⟩ ttl pattern now).2 = true →
        ∃ r, Regex.compile pattern = Except.ok r ∧ RMatch name.data r 0 name.data.length) ∧
    (∀ (tags : Tags) (ttl now : Int),
        shouldDeleteResourceGroup ⟨"kubetest-123", tags⟩ ttl "kube" now = ("", false)) ∧
    (∀ (rg : ResourceGroup) (ttl now : Int) (pattern e : String),
        Regex.compile pattern = Except.error e →
        shouldDeleteResourceGroup rg ttl pattern now = ("", false)) ∧
    shouldDeleteResourceGroup ⟨"kubetest-123", [("creationTimestamp", "2020-12-01T00:00:00Z")]⟩
      defaultTTL "^kube.+$" 1609459200000000000 = ("31 days (744 hours)", true) := by
  refine ⟨?_, ?_, ?_, by decide⟩
  · intro name tags ttl now pattern hp hn h
    by_cases hv : hasTag tags doNotDeleteTag
    · simp [shouldDeleteResourceGroup, hv] at h
    · by_cases hg : regexGatePasses pattern name
      · unfold regexGatePasses at hg
        rw [if_neg hp] at hg
        cases hrm : regexMatchesResourceGroupName pattern name with
        | error e => rw [hrm] at hg; simp at hg
        | ok b =>
          cases b with
          | false => rw [hrm] at hg; simp at hg
          | true =>
            unfold regexMatchesResourceGroupName at hrm
            rw [if_pos hp] at hrm
            cases hc : Regex.compile pattern with
            | error e => rw [hc] at hrm; simp at hrm
            | ok rgx =>
              rw [hc] at hrm
              simp only at hrm
              by_cases hfs : findString rgx name ≠ name
              · rw [if_pos hfs] at hrm; simp at hrm
              · push_neg at hfs
                exact ⟨rgx, rfl, findString_whole_match hfs hn⟩
      · simp [shouldDeleteResourceGroup, hv, hg] at h
  · intro tags ttl now
    by_cases hv : hasTag tags doNotDeleteTag
    · simp [shouldDeleteResourceGroup, hv]
    · have hg : regexGatePasses "kube" "kubetest-123" = false := by decide
      simp [shouldDeleteResourceGroup, hv, hg]
  · intro rg ttl now pattern e hc
    have hp : pattern ≠ "" := by
      intro hpe; subst hpe
      rw [show Regex.compile "" = Except.ok Regex.eps from rfl] at hc
      exact absurd hc (by simp)
    by_cases hv : hasTag rg.tags doNotDeleteTag
    · simp [shouldDeleteResourceGroup, hv]
    · have hrm : regexMatchesResourceGroupName pattern rg.name
          = Except.error ("failed to compile regex: " ++ e) := by
        unfold regexMatchesResourceGroupName
        rw [if_pos hp, hc]
      have hg : regexGatePasses pattern rg.name = false := by
        unfold regexGatePasses
        rw [if_neg hp, hrm]
      simp [shouldDeleteResourceGroup, hv, hg]

theorem pattern_gate_full_match_witness :
    ∃ r, Regex.compile "^kube.+$" = Except.ok r ∧
      RMatch ("kubetest-123" : String).data r 0 ("kubetest-123" : String).data.length :=
  pattern_gate_full_match.1 "kubetest-123" [("creationTimestamp", "2020-12-01T00:00:00Z")]
    defaultTTL 1609459200000000000 "^kube.+$" (by decide) (by decide) (by decide)



/-! ## Sweeper and dry-run theorems -/


/-- In dry-run mode the page sweep never consults the delete oracle. -/
theorem sweepPage_oracle_independent (page : List ResourceGroup) (ttl : Int) (regex : String)
    (now : Int) (f g : String → Option String) :
    sweepPage page ttl true regex now f = sweepPage page ttl true regex now g := by
  induction page with
  | nil => rfl
  | cons rg rest ih =>
    simp only [sweepPage, ih]
    cases hsd : shouldDeleteResourceGroup rg ttl regex now with
    | mk age elig => cases elig <;> simp

/-- Every dry-run sweep action is a log entry for an eligible group of the
page, carrying that group's name and computed age. -/
theorem sweepPage_dryRun_mem (page : List ResourceGroup) (ttl : Int) (regex : String)
    (now : Int) (f : String → Option String) (a : RGAction)
    (h : a ∈ sweepPage page ttl true regex now f) :
    ∃ rg ∈ page, ∃ age, shouldDeleteResourceGroup rg ttl regex now = (age, true) ∧
      a = RGAction.dryRunEligible rg.name age := by
  induction page with
  | nil => simp [sweepPage] at h
  | cons rg rest ih =>
    rw [sweepPage] at h
    cases hsd : shouldDeleteResourceGroup rg ttl regex now with
    | mk age elig =>
      rw [hsd] at h
      cases elig with
      | true =>
        simp only [if_true, List.mem_cons] at h
        rcases h with h | h
        · exact ⟨rg, List.mem_cons_self _ _, age, hsd, by simpa using h⟩
        · obtain ⟨rg', hm, age', h1, h2⟩ := ih h
          exact ⟨rg', List.mem_cons_of_mem _ hm, age', h1, h2⟩
      | false =>
        simp only at h
        obtain ⟨rg', hm, age', h1, h2⟩ := ih h
        exact ⟨rg', List.mem_cons_of_mem _ hm, age', h1, h2⟩

/-- When every page fetch succeeds the sweep returns no error, whatever
the delete oracle does. -/
theorem runRGC_all_pages_ok_no_error (pageLists : List (List ResourceGroup)) (ttl : Int)
    (dryRun : Bool) (regex : String) (now : Int) (beginDelete : String → Option String) :
    (runResourceGroupCleanup (pageLists.map Except.ok) ttl dryRun regex now beginDelete).2
      = none := by
  induction pageLists with
  | nil => rfl
  | cons p rest ih =>
    simp only [List.map_cons, runResourceGroupCleanup]
    rw [show (runResourceGroupCleanup (rest.map Except.ok) ttl dryRun regex now beginDelete)
        = ((runResourceGroupCleanup (rest.map Except.ok) ttl dryRun regex now beginDelete).1,
           (runResourceGroupCleanup (rest.map Except.ok) ttl dryRun regex now beginDelete).2)
      from rfl]
    simp [ih]

/-- A page-fetch error aborts the sweep: the error is returned wrapped,
only the pages before it are swept. -/
theorem runRGC_page_error_aborts (good : List (List ResourceGroup)) (e : String)
    (rest : List (Except String (List ResourceGroup))) (ttl : Int) (dryRun : Bool)
    (regex : String) (now : Int) (beginDelete : String → Option String) :
    runResourceGroupCleanup (good.map Except.ok ++ Except.error e :: rest)
        ttl dryRun regex now beginDelete
      = ((good.map (fun p => sweepPage p ttl dryRun regex now beginDelete)).flatten,
         some ("error when iterating resource groups: " ++ e)) := by
  induction good with
  | nil => rfl
  | cons p ps ih =>
    simp only [List.map_cons, List.cons_append, runResourceGroupCleanup, List.flatten_cons,
      List.append_eq, ih]


/-- Unfolding equation of the sweep on a successful page. -/
theorem runRGC_cons_ok (page : List ResourceGroup) (rest : List (Except String (List ResourceGroup)))
    (ttl : Int) (dryRun : Bool) (regex : String) (now : Int) (bd : String → Option String) :
    runResourceGroupCleanup (Except.ok page :: rest) ttl dryRun regex now bd
      = (sweepPage page ttl dryRun regex now bd
           ++ (runResourceGroupCleanup rest ttl dryRun regex now bd).1,
         (runResourceGroupCleanup rest ttl dryRun regex now bd).2) := rfl

/-- In dry-run mode the whole sweep never consults the delete oracle. -/
theorem runRGC_oracle_independent (pages : List (Except String (List ResourceGroup)))
    (ttl : Int) (regex : String) (now : Int) (f g : String → Option String) :
    runResourceGroupCleanup pages ttl true regex now f
      = runResourceGroupCleanup pages ttl true regex now g := by
  induction pages with
  | nil => rfl
  | cons p rest ih =>
    cases p with
    | error e => rfl
    | ok page =>
      rw [runRGC_cons_ok, runRGC_cons_ok, ih, sweepPage_oracle_independent page ttl regex now f g]

/-- Every dry-run sweep action is an eligibility log line. -/
theorem runRGC_dryRun_mem (pages : List (Except String (List ResourceGroup)))
    (ttl : Int) (regex : String) (now : Int) (f : String → Option String) (a : RGAction)
    (h : a ∈ (runResourceGroupCleanup pages ttl true regex now f).1) :
    ∃ rg age, shouldDeleteResourceGroup rg ttl regex now = (age, true) ∧
      a = RGAction.dryRunEligible rg.name age := by
  induction pages with
  | nil => simp [runResourceGroupCleanup] at h
  | cons p rest ih =>
    cases p with
    | error e => simp [runResourceGroupCleanup] at h
    | ok page =>
      rw [runRGC_cons_ok] at h
      simp only [List.mem_append] at h
      rcases h with h | h
      · obtain ⟨rg, _, age, h1, h2⟩ := sweepPage_dryRun_mem page ttl regex now f a h
        exact ⟨rg, age, h1, h2⟩
      · exact ih h

/-- In dry-run mode the phase-3 inner loop only logs, never deletes. -/
theorem deleteList_dryRun (aids : List String) (f : String → Option String) :
    deleteList aids f true = (aids.map RAAction.dryRunSkipped, none) := by
  induction aids with
  | nil => rfl
  | cons a rest ih => simp [deleteList, ih]

/-- In dry-run mode phase 3 logs every remaining assignment and errors
never. -/
theorem deletePhase_dryRun (m : PrincipalMap) (f : String → Option String) :
    deletePhase m f true = ((m.map Prod.snd).flatten.map RAAction.dryRunSkipped, none) := by
  induction m with
  | nil => rfl
  | cons e rest ih =>
    cases e with
    | mk k aids => simp [deletePhase, deleteList_dryRun, ih, List.map_append]

/-- In dry-run mode reconciliation never consults the delete oracle. -/
theorem runRAC_oracle_independent (subID : String)
    (pages : List (Except String (List RoleAssignment)))
    (gr : List String → Except String (List (Option String)))
    (f g : String → Option String) :
    runRoleAssignmentCleanup subID pages gr f true
      = runRoleAssignmentCleanup subID pages gr g true := by
  unfold runRoleAssignmentCleanup
  cases collectPages subID [] pages with
  | error e => rfl
  | ok m =>
    by_cases hm : m.isEmpty
    · simp [hm]
    · simp only [hm, if_false]
      cases gr (m.map Prod.fst) with
      | error e => rfl
      | ok resp => simp [deletePhase_dryRun]

/-- Every dry-run reconciliation action is a log entry. -/
theorem runRAC_dryRun_mem (subID : String)
    (pages : List (Except String (List RoleAssignment)))
    (gr : List String → Except String (List (Option String)))
    (f : String → Option String) (a : RAAction)
    (h : a ∈ (runRoleAssignmentCleanup subID pages gr f true).1) :
    ∃ aid, a = RAAction.dryRunSkipped aid := by
  unfold runRoleAssignmentCleanup at h
  cases hc : collectPages subID [] pages with
  | error e => rw [hc] at h; simp at h
  | ok m =>
    rw [hc] at h
    by_cases hm : m.isEmpty
    · simp [hm] at h
    · simp only [hm, if_false] at h
      cases hg : gr (m.map Prod.fst) with
      | error e => rw [hg] at h; simp at h
      | ok resp =>
        rw [hg] at h
        simp only [deletePhase_dryRun] at h
        by_cases hr : (removeExisting m resp).isEmpty
        · simp [hr] at h
        · simp only [hr, if_false, deletePhase_dryRun] at h
          obtain ⟨aid, _, ha⟩ := List.mem_map.mp h
          exact ⟨aid, ha.symm⟩


/-- **C7.** A delete-submission error is logged as an action and the sweep
continues — with all pages fetched successfully the sweep returns no
error regardless of delete outcomes — whereas a page-fetch error aborts
the sweep at once, is returned to the caller, and leaves the later pages
unprocessed. The closed conjunct shows a failed submission followed by a
successful one in the same page. -/
theorem sweep_continues_after_delete_error_aborts_on_page_error :
    (∀ (pageLists : List (List ResourceGroup)) (ttl : Int) (dryRun : Bool) (regex : String)
        (now : Int) (beginDelete : String → Option String),
        (runResourceGroupCleanup (pageLists.map Except.ok) ttl dryRun regex now beginDelete).2
          = none) ∧
    (∀ (good : List (List ResourceGroup)) (e : String)
        (rest : List (Except String (List ResourceGroup))) (ttl : Int) (dryRun : Bool)
        (regex : String) (now : Int) (beginDelete : String → Option String),
        runResourceGroupCleanup (good.map Except.ok ++ Except.error e :: rest)
            ttl dryRun regex now beginDelete
          = ((good.map (fun p => sweepPage p ttl dryRun regex now beginDelete)).flatten,
             some ("error when iterating resource groups: " ++ e))) ∧
    runResourceGroupCleanup
        [Except.ok [⟨"kubetest-a", [("creationTimestamp", "2020-12-28T00:00:00Z")]⟩,
                    ⟨"kubetest-b", [("creationTimestamp", "2020-12-28T00:00:00Z")]⟩]]
        defaultTTL false "" 1609459200000000000
        (fun n => if n = "kubetest-a" then some "boom" else none)
      = ([RGAction.deleteFailed "kubetest-a" "boom",
          RGAction.deleteBegun "kubetest-b" "4 days (96 hours)"], none) :=
  ⟨runRGC_all_pages_ok_no_error, runRGC_page_error_aborts, by decide⟩

/-- **C9.** With dry-run enabled neither cleanup consults its delete
oracle (the runs are oblivious to it, so no deletion request is issued),
and every action taken is a log entry — for resource groups one naming
the eligible group and its computed age, for role assignments one naming
the skipped assignment. -/
theorem dry_run_issues_no_deletions :
    (∀ (pages : List (Except String (List ResourceGroup))) (ttl : Int) (regex : String)
        (now : Int) (f g : String → Option String),
        runResourceGroupCleanup pages ttl true regex now f
          = runResourceGroupCleanup pages ttl true regex now g) ∧
    (∀ (pages : List (Except String (List ResourceGroup))) (ttl : Int) (regex : String)
        (now : Int) (f : String → Option String) (a : RGAction),
        a ∈ (runResourceGroupCleanup pages ttl true regex now f).1 →
        ∃ rg age, shouldDeleteResourceGroup rg ttl regex now = (age, true) ∧
          a = RGAction.dryRunEligible rg.name age) ∧
    (∀ (subID : String) (pages : List (Except String (List RoleAssignment)))
        (gr : List String → Except String (List (Option String)))
        (f g : String → Option String),
        runRoleAssignmentCleanup subID pages gr f true
          = runRoleAssignmentCleanup subID pages gr g true) ∧
    (∀ (subID : String) (pages : List (Except String (List RoleAssignment)))
        (gr : List String → Except String (List (Option String)))
        (f : String → Option String) (a : RAAction),
        a ∈ (runRoleAssignmentCleanup subID pages gr f true).1 →
        ∃ aid, a = RAAction.dryRunSkipped aid) :=
  ⟨runRGC_oracle_independent, runRGC_dryRun_mem, runRAC_oracle_independent, runRAC_dryRun_mem⟩

/-- Witness for C9: the dry-run log line of an eligible four-day-old
group names the group and its age. -/
theorem dry_run_issues_no_deletions_witness :
    ∃ rg age, shouldDeleteResourceGroup rg defaultTTL "" 1609459200000000000 = (age, true) ∧
      RGAction.dryRunEligible "kubetest-456" "4 days (96 hours)"
        = RGAction.dryRunEligible rg.name age :=
  dry_run_issues_no_deletions.2.1
    [Except.ok [⟨"kubetest-456", [("creationTimestamp", "2020-12-28T00:00:00Z")]⟩]]
    defaultTTL "" 1609459200000000000 (fun _ => some "never called")
    (RGAction.dryRunEligible "kubetest-456" "4 days (96 hours)") (by decide)



/-! ## Reconciler theorems -/


/-- `aid` is recorded under `pid` in the candidate map. -/
def aidIn (m : PrincipalMap) (pid aid : String) : Prop :=
  ∃ v, (pid, v) ∈ m ∧ aid ∈ v

/-- The empty candidate map records nothing. -/
theorem aidIn_nil (pid aid : String) : ¬ aidIn [] pid aid := by
  rintro ⟨v, hm, _⟩
  simp at hm

/-- Membership in a candidate map, one binding at a time. -/
theorem aidIn_cons (k : String) (v : List String) (rest : PrincipalMap) (q y : String) :
    aidIn ((k, v) :: rest) q y ↔ (q = k ∧ y ∈ v) ∨ aidIn rest q y := by
  constructor
  · rintro ⟨v', hm, hy⟩
    rcases List.mem_cons.mp hm with he | hm'
    · rw [Prod.mk.injEq] at he
      exact Or.inl ⟨he.1, he.2 ▸ hy⟩
    · exact Or.inr ⟨v', hm', hy⟩
  · rintro (⟨hq, hy⟩ | ⟨v', hm', hy⟩)
    · exact ⟨v, by rw [hq]; exact List.mem_cons_self _ _, hy⟩
    · exact ⟨v', List.mem_cons_of_mem _ hm', hy⟩

/-- `appendAssignment` adds exactly the one new pair. -/
theorem aidIn_appendAssignment (m : PrincipalMap) (p x q y : String) :
    aidIn (appendAssignment m p x) q y ↔ aidIn m q y ∨ (q = p ∧ y = x) := by
  induction m with
  | nil =>
    rw [show appendAssignment [] p x = [(p, [x])] from rfl]
    rw [aidIn_cons]
    simp [aidIn_nil p y, aidIn_nil q y]
  | cons e rest ih =>
    obtain ⟨k, v⟩ := e
    by_cases hk : k = p
    · subst hk
      rw [show appendAssignment ((k, v) :: rest) k x = (k, v ++ [x]) :: rest from by
        simp [appendAssignment]]
      rw [aidIn_cons, aidIn_cons]
      simp only [List.mem_append, List.mem_singleton]
      tauto
    · rw [show appendAssignment ((k, v) :: rest) p x = (k, v) :: appendAssignment rest p x from by
        simp [appendAssignment, hk]]
      rw [aidIn_cons, aidIn_cons, ih]
      tauto

/-- Collecting one page records exactly the assignments the phase-1 filter
keeps. -/
theorem aidIn_collectPage (subID : String) (page : List RoleAssignment) :
    ∀ (m : PrincipalMap) (q y : String),
      aidIn (collectPage subID m page) q y ↔
        aidIn m q y ∨ ∃ a ∈ page, assignmentFilter subID a = some (q, y) := by
  induction page with
  | nil => intro m q y; simp [collectPage]
  | cons a rest ih =>
    intro m q y
    have hstep : collectPage subID m (a :: rest)
        = collectPage subID
            (match assignmentFilter subID a with
             | some (pid, aid) => appendAssignment m pid aid
             | none => m) rest := by
      simp [collectPage]
    rw [hstep]
    cases hf : assignmentFilter subID a with
    | none =>
      rw [ih]
      simp only [List.mem_cons]
      constructor
      · rintro (h | ⟨a', hm, hfa⟩)
        · exact Or.inl h
        · exact Or.inr ⟨a', Or.inr hm, hfa⟩
      · rintro (h | ⟨a', (rfl | hm), hfa⟩)
        · exact Or.inl h
        · rw [hf] at hfa; exact absurd hfa (by simp)
        · exact Or.inr ⟨a', hm, hfa⟩
    | some p =>
      obtain ⟨pid, aid⟩ := p
      rw [ih, aidIn_appendAssignment]
      simp only [List.mem_cons]
      constructor
      · rintro ((h | ⟨hq, hy⟩) | ⟨a', hm, hfa⟩)
        · exact Or.inl h
        · exact Or.inr ⟨a, Or.inl rfl, by rw [hf, hq, hy]⟩
        · exact Or.inr ⟨a', Or.inr hm, hfa⟩
      · rintro (h | ⟨a', (rfl | hm), hfa⟩)
        · exact Or.inl (Or.inl h)
        · rw [hf] at hfa
          have hpq := Option.some.inj hfa
          have h1 : pid = q := congrArg Prod.fst hpq
          have h2 : aid = y := congrArg Prod.snd hpq
          exact Or.inl (Or.inr ⟨h1.symm, h2.symm⟩)
        · exact Or.inr ⟨a', hm, hfa⟩


/-- With every page fetch succeeding, phase 1 folds the pages into the
candidate map. -/
theorem collectPages_ok (subID : String) (pageLists : List (List RoleAssignment)) :
    ∀ m : PrincipalMap,
      collectPages subID m (pageLists.map Except.ok)
        = Except.ok (pageLists.foldl (collectPage subID) m) := by
  induction pageLists with
  | nil => intro m; rfl
  | cons p rest ih =>
    intro m
    rw [List.map_cons, collectPages, List.foldl_cons]
    exact ih (collectPage subID m p)

/-- The folded candidate map records exactly the kept assignments of all
pages. -/
theorem aidIn_collectFold (subID : String) (pageLists : List (List RoleAssignment)) :
    ∀ (m : PrincipalMap) (q y : String),
      aidIn (pageLists.foldl (collectPage subID) m) q y ↔
        aidIn m q y ∨ ∃ a ∈ pageLists.flatten, assignmentFilter subID a = some (q, y) := by
  induction pageLists with
  | nil => intro m q y; rw [List.foldl_nil]; simp
  | cons p rest ih =>
    intro m q y
    rw [List.foldl_cons, ih, aidIn_collectPage]
    simp only [List.flatten_cons, List.mem_append]
    constructor
    · rintro ((h | ⟨a, ha, hf⟩) | ⟨a, ha, hf⟩)
      · exact Or.inl h
      · exact Or.inr ⟨a, Or.inl ha, hf⟩
      · exact Or.inr ⟨a, Or.inr ha, hf⟩
    · rintro (h | ⟨a, (ha | ha), hf⟩)
      · exact Or.inl (Or.inl h)
      · exact Or.inl (Or.inr ⟨a, ha, hf⟩)
      · exact Or.inr ⟨a, ha, hf⟩

/-- Deleting a key removes exactly that principal's assignments. -/
theorem aidIn_eraseKey (m : PrincipalMap) (k q y : String) :
    aidIn (eraseKey m k) q y ↔ aidIn m q y ∧ q ≠ k := by
  constructor
  · rintro ⟨v, hm, hy⟩
    rw [eraseKey, List.mem_filter] at hm
    refine ⟨⟨v, hm.1, hy⟩, ?_⟩
    simpa using hm.2
  · rintro ⟨⟨v, hm, hy⟩, hq⟩
    exact ⟨v, by rw [eraseKey, List.mem_filter]; exact ⟨hm, by simpa using hq⟩, hy⟩

/-- Phase 2 removes exactly the principals the directory confirmed (the
non-nil ids of the response). -/
theorem aidIn_removeExisting (response : List (Option String)) :
    ∀ (m : PrincipalMap) (q y : String),
      aidIn (removeExisting m response) q y ↔
        aidIn m q y ∧ q ∉ response.filterMap (fun x => x) := by
  induction response with
  | nil => intro m q y; simp [removeExisting]
  | cons o rest ih =>
    intro m q y
    cases o with
    | none =>
      rw [show removeExisting m (none :: rest) = removeExisting m rest from rfl, ih]
      simp
    | some c =>
      rw [show removeExisting m (some c :: rest) = removeExisting (eraseKey m c) rest from rfl,
        ih, aidIn_eraseKey]
      rw [show List.filterMap (fun x => x) (some c :: rest) = c :: List.filterMap (fun x => x) rest
        from rfl]
      simp only [List.mem_cons]
      tauto

/-- An assignment is in the concatenated value lists iff some principal
records it. -/
theorem mem_flattenValues (m : PrincipalMap) (y : String) :
    y ∈ (m.map Prod.snd).flatten ↔ ∃ pid, aidIn m pid y := by
  rw [List.mem_flatten]
  constructor
  · rintro ⟨l, hl, hy⟩
    obtain ⟨⟨pid, v⟩, hm, he⟩ := List.mem_map.mp hl
    have he' : v = l := he
    exact ⟨pid, v, hm, he'.symm ▸ hy⟩
  · rintro ⟨pid, v, hm, hy⟩
    exact ⟨v, List.mem_map.mpr ⟨(pid, v), hm, rfl⟩, hy⟩

/-- With every delete succeeding, the inner phase-3 loop deletes the whole
list in order. -/
theorem deleteList_all_ok (f : String → Option String) :
    ∀ aids : List String, (∀ x ∈ aids, f x = none) →
      deleteList aids f false = (aids.map RAAction.deleted, none) := by
  intro aids
  induction aids with
  | nil => intro _; rfl
  | cons a rest ih =>
    intro h
    rw [deleteList]
    simp only [Bool.false_eq_true, if_false, h a (List.mem_cons_self _ _),
      ih (fun y hy => h y (List.mem_cons_of_mem _ hy)), List.map_cons]

/-- With every delete succeeding, phase 3 deletes every remaining
assignment in map order and returns no error. -/
theorem deletePhase_all_ok (f : String → Option String) :
    ∀ m : PrincipalMap, (∀ x ∈ (m.map Prod.snd).flatten, f x = none) →
      deletePhase m f false = ((m.map Prod.snd).flatten.map RAAction.deleted, none) := by
  intro m
  induction m with
  | nil => intro _; rfl
  | cons e rest ih =>
    intro h
    obtain ⟨k, aids⟩ := e
    have h1 : ∀ x ∈ aids, f x = none := by
      intro x hx
      exact h x (by simp [List.mem_flatten]; exact Or.inl hx)
    have h2 : ∀ x ∈ (rest.map Prod.snd).flatten, f x = none := by
      intro x hx
      refine h x ?_
      simp only [List.map_cons, List.flatten_cons, List.mem_append]
      exact Or.inr hx
    rw [deletePhase, deleteList_all_ok f aids h1]
    simp only [ih h2, List.map_cons, List.flatten_cons, List.map_append]


/-- Characterisation of the phase-1 filter: kept iff service-principal
type, exact subscription scope, and both ids present. -/
theorem assignmentFilter_eq_some (subID : String) (a : RoleAssignment) (pid aid : String) :
    assignmentFilter subID a = some (pid, aid) ↔
      a.principalType = some PrincipalTypeServicePrincipal ∧
      a.scope = some (subscriptionScope subID) ∧
      a.principalID = some pid ∧ a.id = some aid := by
  unfold assignmentFilter
  split_ifs with h1 h2
  · simp [h1]
  · simp [h2]
  · rw [not_ne_iff] at h1 h2
    cases hp : a.principalID <;> cases hi : a.id <;>
      simp [h1, h2, hp, hi, Prod.mk.injEq, and_comm]


/-- In a run where every page fetch, the directory query and every delete
succeed, an assignment id is deleted iff some listed assignment carries it
with a service-principal type, the exact subscription scope, both ids
present, and a principal the directory did not confirm. -/
theorem orphaned_assignment_deleted_iff_aux (subID : String)
    (pageLists : List (List RoleAssignment))
    (gr : List String → Except String (List (Option String)))
    (resp : List (Option String)) (f : String → Option String) (aid : String)
    (hg : ∀ ids, gr ids = Except.ok resp) (hf : ∀ x, f x = none) :
    RAAction.deleted aid
        ∈ (runRoleAssignmentCleanup subID (pageLists.map Except.ok) gr f false).1 ↔
      ∃ a ∈ pageLists.flatten, ∃ pid,
        a.principalType = some PrincipalTypeServicePrincipal ∧
        a.scope = some (subscriptionScope subID) ∧
        a.principalID = some pid ∧ a.id = some aid ∧
        pid ∉ resp.filterMap (fun x => x) := by
  have haid : ∀ pid, aidIn (pageLists.foldl (collectPage subID) []) pid aid ↔
      ∃ a ∈ pageLists.flatten, assignmentFilter subID a = some (pid, aid) := by
    intro pid
    rw [aidIn_collectFold]
    simp [aidIn_nil]
  have hrhs : (∃ a ∈ pageLists.flatten, ∃ pid,
        a.principalType = some PrincipalTypeServicePrincipal ∧
        a.scope = some (subscriptionScope subID) ∧
        a.principalID = some pid ∧ a.id = some aid ∧
        pid ∉ resp.filterMap (fun x => x)) ↔
      ∃ pid, aidIn (pageLists.foldl (collectPage subID) []) pid aid ∧
        pid ∉ resp.filterMap (fun x => x) := by
    constructor
    · rintro ⟨a, ha, pid, h1, h2, h3, h4, h5⟩
      exact ⟨pid, (haid pid).mpr ⟨a, ha, (assignmentFilter_eq_some subID a pid aid).mpr
        ⟨h1, h2, h3, h4⟩⟩, h5⟩
    · rintro ⟨pid, hin, hni⟩
      obtain ⟨a, ha, hfa⟩ := (haid pid).mp hin
      obtain ⟨h1, h2, h3, h4⟩ := (assignmentFilter_eq_some subID a pid aid).mp hfa
      exact ⟨a, ha, pid, h1, h2, h3, h4, hni⟩
  rw [hrhs]
  rw [runRoleAssignmentCleanup, collectPages_ok subID pageLists []]
  by_cases hm : (pageLists.foldl (collectPage subID) []).isEmpty
  · simp only [hm, if_true]
    constructor
    · intro h; simp at h
    · rintro ⟨pid, hin, _⟩
      rw [List.isEmpty_iff] at hm
      rw [hm] at hin
      exact absurd hin (aidIn_nil pid aid)
  · simp only [hm, if_false]
    rw [hg]
    simp only
    by_cases hm2 : (removeExisting (pageLists.foldl (collectPage subID) []) resp).isEmpty
    · simp only [hm2, if_true]
      constructor
      · intro h; simp at h
      · rintro ⟨pid, hin, hni⟩
        have : aidIn (removeExisting (pageLists.foldl (collectPage subID) []) resp) pid aid :=
          (aidIn_removeExisting resp _ pid aid).mpr ⟨hin, hni⟩
        rw [List.isEmpty_iff] at hm2
        rw [hm2] at this
        exact absurd this (aidIn_nil pid aid)
    · simp only [hm2, if_false]
      rw [deletePhase_all_ok f _ (fun x _ => hf x)]
      simp only [Bool.false_eq_true, if_false]
      rw [List.mem_map]
      constructor
      · rintro ⟨y, hy, he⟩
        have hya : y = aid := by
          have := RAAction.deleted.injEq y aid ▸ he
          simpa using he
        subst hya
        obtain ⟨pid, hin⟩ := (mem_flattenValues _ y).mp hy
        obtain ⟨h1, h2⟩ := (aidIn_removeExisting resp _ pid y).mp hin
        exact ⟨pid, h1, h2⟩
      · rintro ⟨pid, hin, hni⟩
        refine ⟨aid, ?_, rfl⟩
        exact (mem_flattenValues _ aid).mpr
          ⟨pid, (aidIn_removeExisting resp _ pid aid).mpr ⟨hin, hni⟩⟩


/-- In a run where every page fetch and the directory query succeed, a
dry-run log entry is produced for an assignment id iff the same orphan
condition holds (the delete oracle is never consulted). -/
theorem orphaned_assignment_dryrun_iff_aux (subID : String)
    (pageLists : List (List RoleAssignment))
    (gr : List String → Except String (List (Option String)))
    (resp : List (Option String)) (f : String → Option String) (aid : String)
    (hg : ∀ ids, gr ids = Except.ok resp) :
    RAAction.dryRunSkipped aid
        ∈ (runRoleAssignmentCleanup subID (pageLists.map Except.ok) gr f true).1 ↔
      ∃ a ∈ pageLists.flatten, ∃ pid,
        a.principalType = some PrincipalTypeServicePrincipal ∧
        a.scope = some (subscriptionScope subID) ∧
        a.principalID = some pid ∧ a.id = some aid ∧
        pid ∉ resp.filterMap (fun x => x) := by
  have haid : ∀ pid, aidIn (pageLists.foldl (collectPage subID) []) pid aid ↔
      ∃ a ∈ pageLists.flatten, assignmentFilter subID a = some (pid, aid) := by
    intro pid
    rw [aidIn_collectFold]
    simp [aidIn_nil]
  have hrhs : (∃ a ∈ pageLists.flatten, ∃ pid,
        a.principalType = some PrincipalTypeServicePrincipal ∧
        a.scope = some (subscriptionScope subID) ∧
        a.principalID = some pid ∧ a.id = some aid ∧
        pid ∉ resp.filterMap (fun x => x)) ↔
      ∃ pid, aidIn (pageLists.foldl (collectPage subID) []) pid aid ∧
        pid ∉ resp.filterMap (fun x => x) := by
    constructor
    · rintro ⟨a, ha, pid, h1, h2, h3, h4, h5⟩
      exact ⟨pid, (haid pid).mpr ⟨a, ha, (assignmentFilter_eq_some subID a pid aid).mpr
        ⟨h1, h2, h3, h4⟩⟩, h5⟩
    · rintro ⟨pid, hin, hni⟩
      obtain ⟨a, ha, hfa⟩ := (haid pid).mp hin
      obtain ⟨h1, h2, h3, h4⟩ := (assignmentFilter_eq_some subID a pid aid).mp hfa
      exact ⟨a, ha, pid, h1, h2, h3, h4, hni⟩
  rw [hrhs]
  rw [runRoleAssignmentCleanup, collectPages_ok subID pageLists []]
  by_cases hm : (pageLists.foldl (collectPage subID) []).isEmpty
  · simp only [hm, if_true]
    constructor
    · intro h; simp at h
    · rintro ⟨pid, hin, _⟩
      rw [List.isEmpty_iff] at hm
      rw [hm] at hin
      exact absurd hin (aidIn_nil pid aid)
  · simp only [hm, if_false]
    rw [hg]
    simp only
    by_cases hm2 : (removeExisting (pageLists.foldl (collectPage subID) []) resp).isEmpty
    · simp only [hm2, if_true]
      constructor
      · intro h; simp at h
      · rintro ⟨pid, hin, hni⟩
        have : aidIn (removeExisting (pageLists.foldl (collectPage subID) []) resp) pid aid :=
          (aidIn_removeExisting resp _ pid aid).mpr ⟨hin, hni⟩
        rw [List.isEmpty_iff] at hm2
        rw [hm2] at this
        exact absurd this (aidIn_nil pid aid)
    · simp only [hm2, if_false]
      rw [deletePhase_dryRun]
      simp only [Bool.false_eq_true, if_false]
      rw [List.mem_map]
      constructor
      · rintro ⟨y, hy, he⟩
        have hya : y = aid := by simpa using he
        subst hya
        obtain ⟨pid, hin⟩ := (mem_flattenValues _ y).mp hy
        obtain ⟨h1, h2⟩ := (aidIn_removeExisting resp _ pid y).mp hin
        exact ⟨pid, h1, h2⟩
      · rintro ⟨pid, hin, hni⟩
        refine ⟨aid, ?_, rfl⟩
        exact (mem_flattenValues _ aid).mpr
          ⟨pid, (aidIn_removeExisting resp _ pid aid).mpr ⟨hin, hni⟩⟩

/-- **C3.** A role assignment is deleted iff it passes the phase-1 filter
(`ServicePrincipal` type, scope exactly `"/subscriptions/<id>"`, both
`principalId` and `id` present) and its principal is not among the ids
the directory confirms — and in dry-run mode it is dry-run logged under
exactly the same condition. The closed conjunct is the spec scenario
with candidate set `P1 : [A1]` and `P2 : [A2, A3]` and only `P1`
confirmed: exactly `A2` and `A3` are deleted. -/
theorem reconciler_deletes_exactly_orphaned_assignments :
    (∀ (subID : String) (pageLists : List (List RoleAssignment))
        (gr : List String → Except String (List (Option String)))
        (resp : List (Option String)) (f : String → Option String) (aid : String),
        (∀ ids, gr ids = Except.ok resp) →
        (∀ x, f x = none) →
        (RAAction.deleted aid
            ∈ (runRoleAssignmentCleanup subID (pageLists.map Except.ok) gr f false).1 ↔
          ∃ a ∈ pageLists.flatten, ∃ pid,
            a.principalType = some PrincipalTypeServicePrincipal ∧
            a.scope = some (subscriptionScope subID) ∧
            a.principalID = some pid ∧ a.id = some aid ∧
            pid ∉ resp.filterMap (fun x => x))) ∧
    (∀ (subID : String) (pageLists : List (List RoleAssignment))
        (gr : List String → Except String (List (Option String)))
        (resp : List (Option String)) (f : String → Option String) (aid : String),
        (∀ ids, gr ids = Except.ok resp) →
        (RAAction.dryRunSkipped aid
            ∈ (runRoleAssignmentCleanup subID (pageLists.map Except.ok) gr f true).1 ↔
          ∃ a ∈ pageLists.flatten, ∃ pid,
            a.principalType = some PrincipalTypeServicePrincipal ∧
            a.scope = some (subscriptionScope subID) ∧
            a.principalID = some pid ∧ a.id = some aid ∧
            pid ∉ resp.filterMap (fun x => x))) ∧
    runRoleAssignmentCleanup "subid"
        [Except.ok
          [⟨some "A1", some "P1", some "ServicePrincipal", some "/subscriptions/subid"⟩,
           ⟨some "A2", some "P2", some "ServicePrincipal", some "/subscriptions/subid"⟩,
           ⟨some "A3", some "P2", some "ServicePrincipal", some "/subscriptions/subid"⟩]]
        (fun _ => Except.ok [some "P1"]) (fun _ => none) false
      = ([RAAction.deleted "A2", RAAction.deleted "A3"], none) :=
  ⟨orphaned_assignment_deleted_iff_aux, orphaned_assignment_dryrun_iff_aux, by decide⟩

/-- The inner phase-3 loop stops at the first failing delete: earlier ids
are deleted, the failing one is reported, later ones are untouched. -/
theorem deleteList_split (f : String → Option String) (x e : String) (l2 : List String) :
    ∀ l1 : List String, (∀ y ∈ l1, f y = none) → f x = some e →
      deleteList (l1 ++ x :: l2) f false
        = (l1.map RAAction.deleted,
           some ("failed to delete role assignment " ++ x ++ ": " ++ e)) := by
  intro l1
  induction l1 with
  | nil =>
    intro _ hx
    simp [deleteList, hx]
  | cons a rest ih =>
    intro h hx
    rw [List.cons_append, deleteList]
    simp only [Bool.false_eq_true, if_false, h a (List.mem_cons_self _ _),
      ih (fun y hy => h y (List.mem_cons_of_mem _ hy)) hx, List.map_cons]

/-- Phase 3 stops at the first failing delete across the whole candidate
map. -/
theorem deletePhase_split (f : String → Option String) (x e : String) :
    ∀ (m : PrincipalMap) (l1 l2 : List String),
      (m.map Prod.snd).flatten = l1 ++ x :: l2 →
      (∀ y ∈ l1, f y = none) →
      f x = some e →
      deletePhase m f false
        = (l1.map RAAction.deleted,
           some ("failed to delete role assignment " ++ x ++ ": " ++ e)) := by
  intro m
  induction m with
  | nil =>
    intro l1 l2 h _ _
    simp only [List.map_nil, List.flatten_nil] at h
    exact absurd h.symm (List.append_ne_nil_of_right_ne_nil l1 (List.cons_ne_nil x l2))
  | cons ent rest ih =>
    intro l1 l2 h hok hx
    obtain ⟨k, aids⟩ := ent
    simp only [List.map_cons, List.flatten_cons] at h
    rcases List.append_eq_append_iff.mp h with ⟨a', ha1, ha2⟩ | ⟨c', hc1, hc2⟩
    · -- l1 = aids ++ a', the failing x lies in the later entries
      have hsub : ∀ y ∈ aids, f y = none := fun y hy =>
        hok y (ha1 ▸ List.mem_append_left a' hy)
      have hsub2 : ∀ y ∈ a', f y = none := fun y hy =>
        hok y (ha1 ▸ List.mem_append_right aids hy)
      rw [deletePhase, deleteList_all_ok f aids hsub]
      simp only [ih a' l2 ha2 hsub2 hx, ha1, List.map_append]
    · -- aids = l1 ++ c', the failing x lies in this entry
      cases c' with
      | nil =>
        simp only [List.append_nil] at hc1
        have hx2 : x :: l2 = (rest.map Prod.snd).flatten := hc2
        have hsub : ∀ y ∈ aids, f y = none := fun y hy => hok y (hc1 ▸ hy)
        rw [deletePhase, deleteList_all_ok f aids hsub]
        simp only [ih [] l2 hx2.symm (by intro y hy; simp at hy) hx, hc1,
          List.map_nil, List.append_nil]
      | cons x' c'' =>
        rw [List.cons_append] at hc2
        injection hc2 with h1 h2
        rw [← h1] at hc1
        rw [deletePhase, hc1, deleteList_split f x e c'' l1 hok hx]


/-- **C8.** In a non-dry-run reconciliation, the first failing
`DeleteByID` makes phase 3 return that error at once: exactly the ids
before it are deleted, the rest of the candidates stay untouched — unlike
the sweeper, which logs per-item failures and continues. The closed
conjunct shows a run where `A2` is deleted, `A3` fails, and the wrapped
error is returned. -/
theorem reconciliation_stops_at_first_delete_error :
    (∀ (m : PrincipalMap) (f : String → Option String) (l1 l2 : List String) (x e : String),
        (m.map Prod.snd).flatten = l1 ++ x :: l2 →
        (∀ y ∈ l1, f y = none) →
        f x = some e →
        deletePhase m f false
          = (l1.map RAAction.deleted,
             some ("failed to delete role assignment " ++ x ++ ": " ++ e))) ∧
    runRoleAssignmentCleanup "subid"
        [Except.ok
          [⟨some "A1", some "P1", some "ServicePrincipal", some "/subscriptions/subid"⟩,
           ⟨some "A2", some "P2", some "ServicePrincipal", some "/subscriptions/subid"⟩,
           ⟨some "A3", some "P2", some "ServicePrincipal", some "/subscriptions/subid"⟩]]
        (fun _ => Except.ok [some "P1"])
        (fun a => if a = "A3" then some "boom" else none) false
      = ([RAAction.deleted "A2"], some "failed to delete role assignment A3: boom") :=
  ⟨fun m f l1 l2 x e h1 h2 h3 => deletePhase_split f x e m l1 l2 h1 h2 h3, by decide⟩

/-- Witness for C8: one principal with two assignments, the second delete
fails. -/
theorem reconciliation_stops_at_first_delete_error_witness :
    deletePhase [("P2", ["A2", "A3"])] (fun a => if a = "A3" then some "boom" else none) false
      = (["A2"].map RAAction.deleted,
         some ("failed to delete role assignment " ++ "A3" ++ ": " ++ "boom")) :=
  reconciliation_stops_at_first_delete_error.1 [("P2", ["A2", "A3"])]
    (fun a => if a = "A3" then some "boom" else none) ["A2"] [] "A3" "boom"
    (by decide) (by decide) (by decide)

/-- Witness for C3: the deleted-iff-orphaned equivalence at the concrete
scenario, for assignment `A2`. -/
theorem reconciler_deletes_exactly_orphaned_assignments_witness :
    RAAction.deleted "A2"
        ∈ (runRoleAssignmentCleanup "subid"
            ([[⟨some "A1", some "P1", some "ServicePrincipal", some "/subscriptions/subid"⟩,
               ⟨some "A2", some "P2", some "ServicePrincipal", some "/subscriptions/subid"⟩,
               ⟨some "A3", some "P2", some "ServicePrincipal", some "/subscriptions/subid"⟩]].map
              Except.ok)
            (fun _ => Except.ok [some "P1"]) (fun _ => none) false).1 ↔
      ∃ a ∈ [[(⟨some "A1", some "P1", some "ServicePrincipal", some "/subscriptions/subid"⟩ :
                RoleAssignment),
              ⟨some "A2", some "P2", some "ServicePrincipal", some "/subscriptions/subid"⟩,
              ⟨some "A3", some "P2", some "ServicePrincipal", some "/subscriptions/subid"⟩]].flatten,
        ∃ pid,
          a.principalType = some PrincipalTypeServicePrincipal ∧
          a.scope = some (subscriptionScope "subid") ∧
          a.principalID = some pid ∧ a.id = some "A2" ∧
          pid ∉ [some "P1"].filterMap (fun x => x) :=
  reconciler_deletes_exactly_orphaned_assignments.1 "subid" _ _ [some "P1"] _ "A2"
    (fun _ => rfl) (fun _ => rfl)


end RgCleanup
